import Mathlib

/-!
Verification of `parse_kanjidic2_jmdict.py`: a two-stage pipeline that
parses a kanjidic2 XML document into a radical-indexed lookup table plus a
per-character record map, links common JMdict entries into the matching
character records, and emits the result as JSON documents.

The shallow embedding below models each XML element by the data the script
actually queries from it (an ElementTree `findall`/`find` result becomes a
field holding the queried content), Python dicts become insertion-ordered
association lists, Python list indexing keeps its negative-index semantics,
and fatal Python exceptions (`AttributeError` on a missing mandatory
element, `TypeError`/`IndexError` on bad radical indexing) become
`Except.error` outcomes.  File emission is modeled as the list of
(filename, record) pairs the script writes, in iteration order.
-/

/-- One `meaning` element under `reading_meaning/rmgroup`: its text plus the
list of its attribute keys (`m.keys()` in the script; the English meanings
are exactly those with no attribute). -/
structure MeaningEl where
  text : String
  attrs : List String
deriving DecidableEq, Repr

/-- One `reading` element under `reading_meaning/rmgroup`: its `r_type`
attribute and its text. -/
structure ReadingEl where
  rType : String
  text : String
deriving DecidableEq, Repr

/-- One `character` element of kanjidic2, modeled by the results of the
queries the script performs on it:
`cpValues` holds the `cp_type` attributes of its `codepoint/cp_value`
children; `literal` is the text of the `literal` child (a single character
in kanjidic2) or `none` when absent; `radicalClassical` is the integer text
of `radical/rad_value[@rad_type=classical]` or `none`; `grade` the integer
text of `misc/grade` or `none`; `strokeCount` the integer text of the first
`misc/stroke_count` or `none` when that element is absent; `readings` and
`meanings` the `reading_meaning/rmgroup` children in document order. -/
structure CharacterEl where
  cpValues : List String
  literal : Option Char
  radicalClassical : Option Int
  grade : Option Int
  strokeCount : Option Int
  readings : List ReadingEl
  meanings : List MeaningEl
deriving DecidableEq, Repr

/-- The kanjidic2 document: its `character` elements in document order. -/
structure Kanjidic2 where
  characters : List CharacterEl
deriving DecidableEq, Repr

/-- A compound record (`word_info` in the script): field names follow the
emitted JSON (`word`, `readings`, `meanings`). -/
structure CompoundRef where
  word : String
  readings : List String
  meanings : List String
deriving DecidableEq, Repr

/-- The per-character record `c` built by `parse_kanjidic2`.  The fields
`onReadings` and `kunReadings` carry the JSON keys `on` and `kun` (the
identifier `on` is not available in Lean); the other field names are the
emitted JSON field names. -/
structure CharacterRecord where
  literal : Option Char
  radical : Option Int
  grade : Option Int
  jouyou : Bool
  strokeCount : Int
  onReadings : List String
  kunReadings : List String
  meanings : List String
  compounds : List CompoundRef
deriving DecidableEq, Repr

/-- One entry of the radical index (`kanji-index.json`). -/
structure RadicalIndexEntry where
  literal : Option Char
  jouyou : Bool
  strokeCount : Int
deriving DecidableEq, Repr

/-- The in-memory map `kanji_info`: a Python dict keyed by the literal
(which is `None` when the `literal` element is absent), modeled as an
insertion-ordered association list with unique keys. -/
abbrev KanjiInfoMap := List (Option Char × CharacterRecord)

/-- Python dict assignment `d[k] = v`: overwrite in place when the key is
present, append at the end otherwise (insertion order is preserved). -/
def dictInsert (m : KanjiInfoMap) (k : Option Char) (v : CharacterRecord) :
    KanjiInfoMap :=
  if m.any (fun p => decide (p.1 = k)) then
    m.map (fun p => if p.1 = k then (k, v) else p)
  else
    m ++ [(k, v)]

/-- Python `k in d`. -/
def dictContains (m : KanjiInfoMap) (k : Option Char) : Bool :=
  m.any (fun p => decide (p.1 = k))

/-- Lookup `d[k]` (as an `Option`). -/
def dictGet (m : KanjiInfoMap) (k : Option Char) : Option CharacterRecord :=
  (m.find? (fun p => decide (p.1 = k))).map (fun p => p.2)

/-- In-place mutation of the value at key `k` (used for
`kanji_info[k]["compounds"].append(...)`). -/
def dictModify (m : KanjiInfoMap) (k : Option Char)
    (f : CharacterRecord → CharacterRecord) : KanjiInfoMap :=
  m.map (fun p => if p.1 = k then (p.1, f p.2) else p)

/-- Python list indexing with an `Int` index: a negative index counts from
the end; an index out of range raises `IndexError`.  `pyListModify l i f`
is `l[i] = f(l[i])` (here: `l[i].append(...)`). -/
def pyListModify {α : Type} (l : List α) (i : Int) (f : α → α) :
    Except String (List α) :=
  let n : Int := l.length
  let j : Int := if i < 0 then i + n else i
  if h : 0 ≤ j ∧ j < n then
    .ok (l.set j.toNat (f (l.get ⟨j.toNat, by
      have := h.2
      omega⟩)))
  else
    .error "IndexError: list index out of range"

/-- The function `extract_kanji_from_word`: the characters of the word lying in the CJK
Unified Ideographs range `0x4e00 .. 0x9fff`, in order, duplicates kept. -/
def extract_kanji_from_word (word : String) : List Char :=
  word.toList.filter (fun c => 0x4e00 ≤ c.toNat ∧ c.toNat ≤ 0x9fff)

/-- The state threaded through the character loop of `parse_kanjidic2`. -/
structure KanjiState where
  kanji_index : List (List RadicalIndexEntry)
  kanji_info : KanjiInfoMap
deriving DecidableEq, Repr

/-- Python `c["grade"] in [1, 2, 3, 4, 5, 6, 8]` where the grade is an int or
`None` (`None in [...]` is false in Python). -/
def gradeJouyou (grade : Option Int) : Bool :=
  match grade with
  | some g => ([1, 2, 3, 4, 5, 6, 8] : List Int).contains g
  | none => false

/-- The record dict `c` built for one character with stroke count `sc`:
`on`/`kun` are the `reading` texts with `r_type` equal to `ja_on` /
`ja_kun`, the meanings are the `meaning` texts with no attribute, and
`compounds` starts empty. -/
def buildRecord (el : CharacterEl) (sc : Int) : CharacterRecord :=
  { literal := el.literal, radical := el.radicalClassical,
    grade := el.grade, jouyou := gradeJouyou el.grade, strokeCount := sc,
    onReadings := (el.readings.filter (fun r => r.rType = "ja_on")).map
      (fun r => r.text),
    kunReadings := (el.readings.filter (fun r => r.rType = "ja_kun")).map
      (fun r => r.text),
    meanings := (el.meanings.filter (fun m => m.attrs.length = 0)).map
      (fun m => m.text),
    compounds := [] }

/-- The projection of a character appended into its radical bucket. -/
def buildIndexEntry (el : CharacterEl) (sc : Int) : RadicalIndexEntry :=
  { literal := el.literal, jouyou := gradeJouyou el.grade,
    strokeCount := sc }

/-- The body of the `for el in xml.findall(...)` loop of `parse_kanjidic2`
for one character element: build the record dict `c`, raising
(`Except.error`) when `misc/stroke_count` is absent (`None.text` is an
`AttributeError`), then append the radical-index projection into bucket
`c["radical"] - 1` (a missing radical is a `TypeError` on `None - 1`; the
bucket index follows Python list semantics) and store the record under its
literal. -/
def processCharacter (st : KanjiState) (el : CharacterEl) :
    Except String KanjiState :=
  match el.strokeCount with
  | none => .error "AttributeError: NoneType object has no attribute text"
  | some sc =>
    match el.radicalClassical with
    | none => .error "TypeError: unsupported operand for NoneType and int"
    | some rad =>
      match pyListModify st.kanji_index (rad - 1)
          (fun b => b ++ [buildIndexEntry el sc]) with
      | .error e => .error e
      | .ok idx =>
        .ok { kanji_index := idx,
              kanji_info := dictInsert st.kanji_info el.literal
                (buildRecord el sc) }

/-- The query `findall` for characters with a jis208 codepoint entry:
the character elements having a `jis208` codepoint entry, in document order
(ElementTree deduplicates the `..` parent steps, so each character appears
once). -/
def selectedCharacters (xml : Kanjidic2) : List CharacterEl :=
  xml.characters.filter (fun el => el.cpValues.contains "jis208")

/-- The character loop of `parse_kanjidic2`, before the final per-bucket
sort: fold the loop body over the selected characters starting from 214
empty buckets and an empty dict. -/
def parse_kanjidic2_raw (xml : Kanjidic2) : Except String KanjiState :=
  (selectedCharacters xml).foldlM processCharacter
    { kanji_index := List.replicate 214 [], kanji_info := [] }

/-- The sort key comparison used on each bucket:
`sorted` with the stroke count as key. -/
def bucketLE (a b : RadicalIndexEntry) : Prop :=
  a.strokeCount ≤ b.strokeCount

instance : DecidableRel bucketLE := fun a b =>
  inferInstanceAs (Decidable (a.strokeCount ≤ b.strokeCount))

instance : IsTotal RadicalIndexEntry bucketLE :=
  ⟨fun a b => Int.le_total a.strokeCount b.strokeCount⟩

instance : IsTrans RadicalIndexEntry bucketLE :=
  ⟨fun _ _ _ hab hbc => le_trans hab hbc⟩

/-- Python `sorted` with a key is a stable sort by that key; insertion sort
by `bucketLE` is extensionally the same stable sort. -/
def sortBucket (g : List RadicalIndexEntry) : List RadicalIndexEntry :=
  List.insertionSort bucketLE g

/-- The function `parse_kanjidic2`: run the character loop, then sort every bucket by
stroke count. -/
def parse_kanjidic2 (xml : Kanjidic2) :
    Except String (List (List RadicalIndexEntry) × KanjiInfoMap) :=
  (parse_kanjidic2_raw xml).map
    (fun st => (st.kanji_index.map sortBucket, st.kanji_info))

/-- One `k_ele` element of a JMdict entry: its mandatory `keb` text and the
list of its `ke_pri` priority markers (possibly empty). -/
structure KEle where
  keb : String
  kePri : List String
deriving DecidableEq, Repr

/-- One `r_ele` element of a JMdict entry: its mandatory `reb` text and the
list of its `re_pri` priority markers. -/
structure REle where
  reb : String
  rePri : List String
deriving DecidableEq, Repr

/-- One `sense` element: its `gloss` texts in document order. -/
structure Sense where
  glosses : List String
deriving DecidableEq, Repr

/-- One JMdict `entry` element, modeled by the children the script
queries. -/
structure JMEntry where
  kEles : List KEle
  rEles : List REle
  senses : List Sense
deriving DecidableEq, Repr

/-- The JMdict document: its `entry` elements in document order. -/
structure JMdict where
  entries : List JMEntry
deriving DecidableEq, Repr

/-- The query `entry.find(".//ke_pri/../keb")`: the `keb` of the first `k_ele` (in
document order) that has a `ke_pri` child, or `none` when no written form
carries a priority marker.  (ElementTree yields the parents of the matched
`ke_pri` elements, deduplicated, in document order, then their `keb`
children; `keb` is mandatory inside `k_ele`.) -/
def findPriorityKeb (e : JMEntry) : Option String :=
  (e.kEles.find? (fun ke => !ke.kePri.isEmpty)).map (fun ke => ke.keb)

/-- The `word_info` dict built for one qualifying entry: `none` exactly
when the entry is skipped by the `if keb is None: continue` test.
`readings` are the `reb` of the `r_ele` children having a `re_pri` child
(`entry.findall(".//re_pri/../reb")`), and `meanings` are all `gloss`
texts across all senses (`entry.findall(".//gloss")`), flattened. -/
def makeWordInfo (e : JMEntry) : Option CompoundRef :=
  match findPriorityKeb e with
  | none => none
  | some w =>
    some { word := w,
           readings := (e.rEles.filter (fun re => !re.rePri.isEmpty)).map
             (fun re => re.reb),
           meanings := (e.senses.map (fun s => s.glosses)).flatten }

/-- The append `kanji_info[k]["compounds"].append(word_info)`. -/
def appendCompound (wi : CompoundRef) (r : CharacterRecord) :
    CharacterRecord :=
  { r with compounds := r.compounds ++ [wi] }

/-- One step of the inner linking loop (`for k in
extract_kanji_from_word(...)`): append the shared `word_info` when `k` is a
key of `kanji_info`, do nothing otherwise (no error). -/
def linkStep (wi : CompoundRef) (acc : KanjiInfoMap) (k : Char) :
    KanjiInfoMap :=
  if dictContains acc (some k) then
    dictModify acc (some k) (appendCompound wi)
  else acc

/-- The linking loop body for one entry: build `word_info`; when the entry
qualifies, walk the kanji extracted from its representative word and append
the shared `word_info` to the record of every character that is a key of
`kanji_info` (characters absent from the map are skipped silently). -/
def linkEntry (m : KanjiInfoMap) (e : JMEntry) : KanjiInfoMap :=
  match makeWordInfo e with
  | none => m
  | some wi => (extract_kanji_from_word wi.word).foldl (linkStep wi) m

/-- The lower-case hexadecimal digit characters used by Python `hex`. -/
def hexDigitChar (d : Nat) : Char :=
  if d < 10 then Char.ofNat (48 + d) else Char.ofNat (87 + d)

/-- Hex digits of `n`, least significant first, with explicit fuel so the
recursion is structural (`fuel > n` suffices). -/
def toHexRevAux : Nat → Nat → List Char
  | 0, _ => []
  | fuel + 1, n =>
    if n < 16 then [hexDigitChar n]
    else hexDigitChar (n % 16) :: toHexRevAux fuel (n / 16)

/-- Python `hex(n)[2:]` for a nonnegative `n`: lower-case hex digits, most
significant first, no leading zeros (and `"0"` for zero). -/
def natToHex (n : Nat) : List Char :=
  (toHexRevAux (n + 1) n).reverse

/-- The name of the per-character output file:
`"0" + hex(ord(literal))[2:] + ".json"`. -/
def kanjiFilename (ch : Char) : String :=
  "0" ++ String.mk (natToHex ch.toNat) ++ ".json"

/-- Numeric value of a lower-case hex digit character. -/
def hexVal (c : Char) : Nat :=
  if c.toNat < 97 then c.toNat - 48 else c.toNat - 87

/-- Is `c` a lower-case hexadecimal digit (`0-9a-f`)? -/
def isLowerHexDigit (c : Char) : Bool :=
  (decide ('0' ≤ c) && decide (c ≤ '9')) ||
  (decide ('a' ≤ c) && decide (c ≤ 'f'))

/-- Value of a big-endian string of hex digits. -/
def fromHexBE (cs : List Char) : Nat :=
  cs.foldl (fun acc c => 16 * acc + hexVal c) 0

/-- Parse the hexadecimal value encoded in an emitted filename: strip the
`.json` extension and read the stem as lower-case hex. -/
def filenameHexValue (s : String) : Option Nat :=
  let cs := s.toList
  let ext := (".json").toList
  if cs.length < ext.length then none
  else if cs.drop (cs.length - ext.length) ≠ ext then none
  else
    let stem := cs.take (cs.length - ext.length)
    if stem ≠ [] ∧ stem.all isLowerHexDigit then some (fromHexBE stem)
    else none

/-- The function `write_kanji_info`, modeled as the list of `(filename, record)` pairs
written, in dict iteration order.  The loop crashes at the first record
whose literal is absent (`ord(None)` is a `TypeError`), so the written
files are the longest prefix of records with a literal. -/
def write_kanji_info (m : KanjiInfoMap) :
    List (String × CharacterRecord) :=
  ((m.map (fun p => p.2)).takeWhile (fun r => r.literal.isSome)).filterMap
    (fun r => r.literal.map (fun ch => (kanjiFilename ch, r)))

/-! Helper lemmas about the dictionary operations and the linking loop. -/

theorem dictGet_cons (p : Option Char × CharacterRecord)
    (t : KanjiInfoMap) (k : Option Char) :
    dictGet (p :: t) k = if p.1 = k then some p.2 else dictGet t k := by
  by_cases h : p.1 = k <;> simp [dictGet, List.find?_cons, h]

theorem dictModify_cons (p : Option Char × CharacterRecord)
    (t : KanjiInfoMap) (k : Option Char)
    (f : CharacterRecord → CharacterRecord) :
    dictModify (p :: t) k f =
      (if p.1 = k then (p.1, f p.2) else p) :: dictModify t k f := by
  by_cases h : p.1 = k <;> simp [dictModify, h]

theorem dictGet_dictModify (m : KanjiInfoMap) (k k' : Option Char)
    (f : CharacterRecord → CharacterRecord) :
    dictGet (dictModify m k f) k' =
      if k' = k then (dictGet m k').map f else dictGet m k' := by
  induction m with
  | nil => by_cases h : k' = k <;> simp [dictGet, dictModify, h]
  | cons p t ih =>
    rw [dictModify_cons, dictGet_cons, dictGet_cons]
    by_cases hpk : p.1 = k
    · rw [if_pos hpk]
      by_cases h1 : p.1 = k'
      · have hk : k' = k := h1.symm.trans hpk
        simp [h1, hk]
      · simp only [h1, if_false]
        rw [ih]
    · rw [if_neg hpk]
      by_cases h1 : p.1 = k'
      · have hk : ¬ k' = k := fun h => hpk (h1.trans h)
        simp [h1, hk]
      · simp only [h1, if_false]
        rw [ih]

theorem dictGet_eq_none_of_not_contains (m : KanjiInfoMap) (k : Option Char)
    (h : dictContains m k = false) : dictGet m k = none := by
  have hall : ∀ p ∈ m, ¬ (decide (p.1 = k) = true) := by
    intro p hp hdec
    have : m.any (fun p => decide (p.1 = k)) = true :=
      List.any_eq_true.mpr ⟨p, hp, hdec⟩
    rw [dictContains] at h
    simp [this] at h
  rw [dictGet, List.find?_eq_none.mpr hall]
  rfl

theorem compounds_append_nil (r : CharacterRecord) :
    { r with compounds := r.compounds ++ [] } = r := by
  cases r; simp

/-- Effect of one linking step on one key: the record at `c` gains `[wi]`
exactly when `c = k` (and `c` is a key); nothing else changes, and no
error can occur. -/
theorem dictGet_linkStep (wi : CompoundRef) (acc : KanjiInfoMap)
    (k c : Char) :
    dictGet (linkStep wi acc k) (some c) =
      (dictGet acc (some c)).map (fun r =>
        { r with compounds :=
            r.compounds ++ (if c = k then [wi] else []) }) := by
  rw [linkStep]
  by_cases hck : c = k
  · subst hck
    cases hc : dictContains acc (some c) with
    | false =>
      rw [if_neg (by simp [hc]),
        dictGet_eq_none_of_not_contains acc (some c) hc]
      rfl
    | true =>
      rw [if_pos (by simp [hc]), dictGet_dictModify, if_pos rfl]
      cases dictGet acc (some c) with
      | none => rfl
      | some r => simp [appendCompound]
  · have hne : ¬ (some c = some k) := by simp [hck]
    have hfin : ∀ o : Option CharacterRecord,
        o = o.map (fun r =>
          { r with compounds := r.compounds ++
              (if c = k then [wi] else []) }) := by
      intro o
      cases o with
      | none => rfl
      | some r => simp [hck, compounds_append_nil r]
    cases hc : dictContains acc (some k) with
    | false =>
      rw [if_neg (by simp [hc])]
      exact hfin (dictGet acc (some c))
    | true =>
      rw [if_pos (by simp [hc]), dictGet_dictModify, if_neg hne]
      exact hfin (dictGet acc (some c))

/-- Effect of the whole inner linking loop on one key: the record at `c`
gains one copy of `wi` per occurrence of `c` in the scanned character
list. -/
theorem dictGet_foldl_linkStep (wi : CompoundRef) (ks : List Char) :
    ∀ (m : KanjiInfoMap) (c : Char),
      dictGet (ks.foldl (linkStep wi) m) (some c) =
        (dictGet m (some c)).map (fun r =>
          { r with compounds :=
              r.compounds ++ List.replicate (ks.count c) wi }) := by
  induction ks with
  | nil =>
    intro m c
    rw [List.foldl_nil]
    cases dictGet m (some c) with
    | none => rfl
    | some r => simp [compounds_append_nil r]
  | cons k ks ih =>
    intro m c
    rw [List.foldl_cons, ih (linkStep wi m k) c, dictGet_linkStep,
      Option.map_map]
    cases dictGet m (some c) with
    | none => rfl
    | some r =>
      simp only [Option.map_some', Function.comp]
      by_cases hck : c = k
      · subst hck
        have hcnt : List.count c (c :: ks) = List.count c ks + 1 := by
          simp [List.count_cons]
        simp [hcnt, List.replicate_succ, List.append_assoc]
      · have hkc : ¬ k = c := fun h => hck h.symm
        have hcnt : List.count c (k :: ks) = List.count c ks := by
          rw [List.count_cons]
          simp [hkc]
        simp [hcnt, hck, List.append_assoc]

/-- A non-qualifying entry leaves the map untouched. -/
theorem linkEntry_of_none {e : JMEntry} (h : makeWordInfo e = none)
    (m : KanjiInfoMap) : linkEntry m e = m := by
  rw [linkEntry, h]

/-- Effect of linking one qualifying entry on one key. -/
theorem dictGet_linkEntry {e : JMEntry} {wi : CompoundRef}
    (h : makeWordInfo e = some wi) (m : KanjiInfoMap) (c : Char) :
    dictGet (linkEntry m e) (some c) =
      (dictGet m (some c)).map (fun r =>
        { r with
          compounds := r.compounds ++
            List.replicate (List.count c (extract_kanji_from_word wi.word)) wi
        }) := by
  rw [linkEntry, h, dictGet_foldl_linkStep]

/-! Helper lemmas about the character-loop fold. -/

/-- If some element of the list fails regardless of the state, the whole
fold fails (either at that element, or earlier at another one). -/
theorem foldlM_isOk_false {σ α : Type} (f : σ → α → Except String σ)
    {l : List α} {a : α} (ha : a ∈ l)
    (hf : ∀ st, (f st a).isOk = false) :
    ∀ st, (l.foldlM f st).isOk = false := by
  induction l with
  | nil => cases ha
  | cons x xs ih =>
    intro st
    rw [List.foldlM_cons]
    cases hx : f st x with
    | error e =>
      show (Except.error e >>= fun s => xs.foldlM f s).isOk = false
      rfl
    | ok s1 =>
      show (Except.ok s1 >>= fun s => xs.foldlM f s).isOk = false
      show (xs.foldlM f s1).isOk = false
      cases ha with
      | head =>
        have := hf st
        rw [hx] at this
        cases this
      | tail _ hmem => exact ih hmem s1

/-- A property of states preserved by every successful loop step holds of
the final state of a successful fold. -/
theorem foldlM_invariant {σ α : Type} (f : σ → α → Except String σ)
    (P : σ → Prop)
    (hP : ∀ s a s', f s a = .ok s' → P s → P s') :
    ∀ (l : List α) (s s' : σ), l.foldlM f s = .ok s' → P s → P s' := by
  intro l
  induction l with
  | nil =>
    intro s s' h hs
    have : Except.ok s = Except.ok s' := h
    cases this
    exact hs
  | cons x xs ih =>
    intro s s' h hs
    rw [List.foldlM_cons] at h
    cases hx : f s x with
    | error e =>
      rw [hx] at h
      cases h
    | ok s1 =>
      rw [hx] at h
      exact ih s1 s' h (hP s x s1 hx hs)

/-- Membership in a dict after an insertion: every pair is an old pair or
the inserted one. -/
theorem mem_dictInsert {m : KanjiInfoMap} {k : Option Char}
    {v : CharacterRecord} {q : Option Char × CharacterRecord}
    (hq : q ∈ dictInsert m k v) : q ∈ m ∨ q = (k, v) := by
  rw [dictInsert] at hq
  by_cases h : m.any (fun p => decide (p.1 = k)) = true
  · rw [if_pos h] at hq
    rcases List.mem_map.mp hq with ⟨p, hp, hpq⟩
    by_cases hpk : p.1 = k
    · right
      rw [if_pos hpk] at hpq
      exact hpq.symm
    · left
      rw [if_neg hpk] at hpq
      exact hpq ▸ hp
  · rw [if_neg h] at hq
    rcases List.mem_append.mp hq with hm | hs
    · exact Or.inl hm
    · exact Or.inr (List.mem_singleton.mp hs)

/-- Inversion of a successful character-loop step. -/
theorem processCharacter_ok {st : KanjiState} {el : CharacterEl}
    {st' : KanjiState} (h : processCharacter st el = .ok st') :
    ∃ sc rad idx, el.strokeCount = some sc ∧
      el.radicalClassical = some rad ∧
      pyListModify st.kanji_index (rad - 1)
        (fun b => b ++ [buildIndexEntry el sc]) = .ok idx ∧
      st' = { kanji_index := idx,
              kanji_info := dictInsert st.kanji_info el.literal
                (buildRecord el sc) } := by
  cases hsc : el.strokeCount with
  | none =>
    simp only [processCharacter, hsc] at h
    exact Except.noConfusion h
  | some sc =>
    cases hrad : el.radicalClassical with
    | none =>
      simp only [processCharacter, hsc, hrad] at h
      exact Except.noConfusion h
    | some rad =>
      cases hidx : pyListModify st.kanji_index (rad - 1)
          (fun b => b ++ [buildIndexEntry el sc]) with
      | error e =>
        simp only [processCharacter, hsc, hrad, hidx] at h
        exact Except.noConfusion h
      | ok idx =>
        simp only [processCharacter, hsc, hrad, hidx] at h
        exact ⟨sc, rad, idx, rfl, rfl, hidx, (Except.ok.inj h).symm⟩

/-! Helper lemmas for the hexadecimal filenames. -/

theorem hexVal_hexDigitChar : ∀ d < 16, hexVal (hexDigitChar d) = d := by
  decide

theorem isLowerHexDigit_hexDigitChar :
    ∀ d < 16, isLowerHexDigit (hexDigitChar d) = true := by
  decide

theorem toHexRevAux_digits :
    ∀ (fuel n : Nat), ∀ c ∈ toHexRevAux fuel n,
      ∃ d, d < 16 ∧ c = hexDigitChar d := by
  intro fuel
  induction fuel with
  | zero => intro n c hc; cases hc
  | succ fuel ih =>
    intro n c hc
    rw [toHexRevAux] at hc
    by_cases h : n < 16
    · rw [if_pos h] at hc
      rcases List.mem_singleton.mp hc with rfl
      exact ⟨n, h, rfl⟩
    · rw [if_neg h] at hc
      cases hc with
      | head => exact ⟨n % 16, Nat.mod_lt _ (by omega), rfl⟩
      | tail _ hmem => exact ih (n / 16) c hmem

theorem fromHexBE_append_singleton (xs : List Char) (c : Char) :
    fromHexBE (xs ++ [c]) = 16 * fromHexBE xs + hexVal c := by
  rw [fromHexBE, List.foldl_append]
  rfl

theorem fromHexBE_toHexRevAux :
    ∀ (fuel n : Nat), n < fuel →
      fromHexBE ((toHexRevAux fuel n).reverse) = n := by
  intro fuel
  induction fuel with
  | zero => intro n h; omega
  | succ fuel ih =>
    intro n hn
    rw [toHexRevAux]
    by_cases h : n < 16
    · rw [if_pos h]
      show fromHexBE [hexDigitChar n] = n
      show 16 * 0 + hexVal (hexDigitChar n) = n
      rw [hexVal_hexDigitChar n h]
      omega
    · rw [if_neg h]
      rw [List.reverse_cons, fromHexBE_append_singleton]
      have hdiv : n / 16 < fuel := by
        have h1 : n / 16 < n := Nat.div_lt_self (by omega) (by omega)
        omega
      rw [ih (n / 16) hdiv, hexVal_hexDigitChar (n % 16) (Nat.mod_lt _ (by omega))]
      omega

/-- The hex digits of `n`, in output order, are lower-case hex digits. -/
theorem natToHex_digits {n : Nat} {c : Char} (hc : c ∈ natToHex n) :
    isLowerHexDigit c = true := by
  rw [natToHex, List.mem_reverse] at hc
  rcases toHexRevAux_digits (n + 1) n c hc with ⟨d, hd, rfl⟩
  exact isLowerHexDigit_hexDigitChar d hd

/-- Round trip of the hex encoding. -/
theorem fromHexBE_natToHex (n : Nat) : fromHexBE (natToHex n) = n :=
  fromHexBE_toHexRevAux (n + 1) n (Nat.lt_succ_self n)

theorem toList_kanjiFilename (ch : Char) :
    (kanjiFilename ch).toList =
      ('0' :: natToHex ch.toNat) ++ (".json").toList := by
  show (kanjiFilename ch).data = ('0' :: natToHex ch.toNat) ++ (".json").data
  rw [kanjiFilename, String.data_append, String.data_append]
  rfl

theorem fromHexBE_cons_zero (l : List Char) :
    fromHexBE ('0' :: l) = fromHexBE l := rfl

/-- The round trip between an emitted filename and the encoded code
point. -/
theorem filenameHexValue_kanjiFilename (ch : Char) :
    filenameHexValue (kanjiFilename ch) = some ch.toNat := by
  have hcs := toList_kanjiFilename ch
  have hext : (".json").toList.length = 5 := rfl
  have hlen : (kanjiFilename ch).toList.length =
      ('0' :: natToHex ch.toNat).length + 5 := by
    rw [hcs, List.length_append, hext]
  have hsub : (kanjiFilename ch).toList.length - (".json").toList.length =
      ('0' :: natToHex ch.toNat).length := by
    rw [hlen, hext]
    omega
  rw [filenameHexValue]
  simp only [hsub]
  rw [hcs, List.drop_left, List.take_left]
  rw [if_neg (by
      simp only [List.length_cons, List.length_append, hext]
      omega),
    if_neg (by simp)]
  rw [if_pos]
  · rw [fromHexBE_cons_zero, fromHexBE_natToHex]
  · refine ⟨by simp, ?_⟩
    rw [List.all_eq_true]
    intro c hc
    cases hc with
    | head => rfl
    | tail _ hmem => exact natToHex_digits hmem

/-! Helper lemmas for the per-bucket sort: sortedness and stability. -/

/-- The decidable test `strokeCount = n`, used to state stability. -/
def bucketKeyP (n : Int) (x : RadicalIndexEntry) : Bool :=
  decide (x.strokeCount = n)

theorem filter_orderedInsert (n : Int) (a : RadicalIndexEntry)
    (l : List RadicalIndexEntry) :
    (List.orderedInsert bucketLE a l).filter (bucketKeyP n) =
      if bucketKeyP n a then a :: l.filter (bucketKeyP n)
      else l.filter (bucketKeyP n) := by
  induction l with
  | nil =>
    rw [List.orderedInsert, List.filter_cons]
  | cons b t ih =>
    rw [List.orderedInsert]
    by_cases hab : bucketLE a b
    · rw [if_pos hab, List.filter_cons]
    · rw [if_neg hab, List.filter_cons, ih, List.filter_cons]
      by_cases ha : bucketKeyP n a
      · have hb : bucketKeyP n b = false := by
          simp only [bucketKeyP, bucketLE, decide_eq_true_eq] at ha hab ⊢
          simp only [decide_eq_false_iff_not]
          omega
        simp [ha, hb]
      · by_cases hb : bucketKeyP n b <;> simp [ha, hb]

/-- Stability of the per-bucket sort: for every stroke count, the entries
with that stroke count appear in the sorted bucket in exactly their
original order. -/
theorem filter_sortBucket (n : Int) (l : List RadicalIndexEntry) :
    (sortBucket l).filter (bucketKeyP n) = l.filter (bucketKeyP n) := by
  induction l with
  | nil => rfl
  | cons a t ih =>
    rw [sortBucket, List.insertionSort, filter_orderedInsert]
    rw [show List.insertionSort bucketLE t = sortBucket t from rfl, ih,
      List.filter_cons]

/-- Sortedness of the per-bucket sort. -/
theorem sorted_sortBucket (l : List RadicalIndexEntry) :
    List.Sorted bucketLE (sortBucket l) :=
  List.sorted_insertionSort bucketLE l

/-- Everything the script writes under the output directory:
`kanji-index.json` (the sorted radical index) and the per-character
files. -/
structure PipelineOutput where
  kanjiIndexFile : List (List RadicalIndexEntry)
  kanjiFiles : List (String × CharacterRecord)
deriving DecidableEq, Repr

/-- The module-level script: parse kanjidic2 (fatal errors abort the run
here, before anything is written), then fold the linking loop over the
JMdict entries, then emit. -/
def runPipeline (kd : Kanjidic2) (jm : JMdict) :
    Except String PipelineOutput :=
  match parse_kanjidic2 kd with
  | .error e => .error e
  | .ok (kanjiIndex, kanjiInfo) =>
    let linked := jm.entries.foldl linkEntry kanjiInfo
    .ok { kanjiIndexFile := kanjiIndex,
          kanjiFiles := write_kanji_info linked }

/-! Concrete example inputs, used by the witness theorems. -/

/-- Example character 兄 (radical 10, 5 strokes, grade 2). -/
def exElAni : CharacterEl :=
  { cpValues := ["jis208", "ucs"], literal := some '兄',
    radicalClassical := some 10, grade := some 2, strokeCount := some 5,
    readings := [], meanings := [] }

/-- Example character 元 (radical 10, 4 strokes, grade 1). -/
def exElGen : CharacterEl :=
  { cpValues := ["jis208"], literal := some '元',
    radicalClassical := some 10, grade := some 1, strokeCount := some 4,
    readings := [{ rType := "ja_on", text := "ゲン" },
                 { rType := "ja_kun", text := "もと" }],
    meanings := [{ text := "beginning", attrs := [] },
                 { text := "origine", attrs := ["m_lang"] }] }

/-- A selected character with no `misc/stroke_count` element. -/
def exElNoStroke : CharacterEl :=
  { cpValues := ["jis208"], literal := some '亜',
    radicalClassical := some 7, grade := none, strokeCount := none,
    readings := [], meanings := [] }

/-- A selected character with a radical number of 0 (outside 1..214). -/
def exElRad0 : CharacterEl :=
  { cpValues := ["jis208"], literal := some '一',
    radicalClassical := some 0, grade := none, strokeCount := some 1,
    readings := [], meanings := [] }

/-- A selected character with a radical number of 300 (outside 1..214). -/
def exElRad300 : CharacterEl :=
  { cpValues := ["jis208"], literal := some '二',
    radicalClassical := some 300, grade := none, strokeCount := some 2,
    readings := [], meanings := [] }

def exKdGood : Kanjidic2 := { characters := [exElAni, exElGen] }

def exKdNoStroke : Kanjidic2 := { characters := [exElNoStroke] }

def exKdRad0 : Kanjidic2 := { characters := [exElRad0] }

def exJmEmpty : JMdict := { entries := [] }

/-- The loop state reached by `parse_kanjidic2_raw` on `exKdGood`: bucket 9
holds the two radical-10 characters in encounter order (5 strokes before 4
strokes). -/
def exStGood : KanjiState :=
  { kanji_index := (List.replicate 214 []).set 9
      [buildIndexEntry exElAni 5, buildIndexEntry exElGen 4],
    kanji_info := [(some '兄', buildRecord exElAni 5),
                   (some '元', buildRecord exElGen 4)] }

/-! Claim theorems. -/

/-- Claim C9: the whole transformation is a deterministic function of the
two parsed input documents; two runs on identical inputs produce identical
output files. -/
theorem runPipeline_deterministic (kd kd' : Kanjidic2) (jm jm' : JMdict)
    (h1 : kd = kd') (h2 : jm = jm') :
    runPipeline kd jm = runPipeline kd' jm' := by
  rw [h1, h2]

theorem runPipeline_deterministic_witness :
    runPipeline exKdGood exJmEmpty = runPipeline exKdGood exJmEmpty :=
  runPipeline_deterministic exKdGood exKdGood exJmEmpty exJmEmpty rfl rfl

/-- Claim C1: a selected character that lacks a stroke-count element makes
the run fail (the per-character `AttributeError` propagates out of
`parse_kanjidic2`, which runs before anything is written), so no output is
produced and no stroke count is ever silently defaulted. -/
theorem missing_strokeCount_fatal (kd : Kanjidic2) (jm : JMdict)
    (h : ∃ el ∈ selectedCharacters kd, el.strokeCount = none) :
    (runPipeline kd jm).isOk = false := by
  rcases h with ⟨el, hmem, hsc⟩
  have hfail : ∀ st, (processCharacter st el).isOk = false := by
    intro st
    simp only [processCharacter, hsc]
    rfl
  have hraw : (parse_kanjidic2_raw kd).isOk = false :=
    foldlM_isOk_false processCharacter hmem hfail _
  rw [runPipeline, parse_kanjidic2]
  cases hr : parse_kanjidic2_raw kd with
  | error e => rfl
  | ok st =>
    rw [hr] at hraw
    exact Bool.noConfusion hraw

theorem missing_strokeCount_fatal_witness :
    (runPipeline exKdNoStroke exJmEmpty).isOk = false :=
  missing_strokeCount_fatal exKdNoStroke exJmEmpty
    ⟨exElNoStroke, by decide, rfl⟩

theorem isOk_except_map {α β : Type} (f : α → β) (x : Except String α) :
    (Except.map f x).isOk = x.isOk := by
  cases x <;> rfl

theorem isOk_parse_eq_raw (kd : Kanjidic2) :
    (parse_kanjidic2 kd).isOk = (parse_kanjidic2_raw kd).isOk := by
  rw [parse_kanjidic2]
  exact isOk_except_map _ _

theorem foldlM_singleton_isOk {σ α : Type} (f : σ → α → Except String σ)
    (s : σ) (a : α) :
    (List.foldlM f s [a]).isOk = (f s a).isOk := by
  cases h : f s a with
  | error e => rw [List.foldlM_cons, h]; rfl
  | ok s1 => rw [List.foldlM_cons, h]; rfl

theorem pyListModify_isOk {α : Type} (l : List α) (i : Int) (f : α → α) :
    (pyListModify l i f).isOk = true ↔
      (0 ≤ (if i < 0 then i + (l.length : Int) else i) ∧
        (if i < 0 then i + (l.length : Int) else i) < (l.length : Int)) := by
  by_cases hc : (0 ≤ (if i < 0 then i + (l.length : Int) else i) ∧
      (if i < 0 then i + (l.length : Int) else i) < (l.length : Int))
  · simp only [pyListModify]
    rw [dif_pos hc]
    exact iff_of_true rfl hc
  · simp only [pyListModify]
    rw [dif_neg hc]
    exact iff_of_false (fun h => Bool.noConfusion h) hc

/-- Claim C2 (amended): for a selected character carrying a stroke count
and a radical number `r`, extraction fails if and only if `r ≥ 215` or
`r ≤ -214`.  A radical number in `-213 .. 0` — also outside the valid
bucket range `1 .. 214` — is accepted silently: Python negative indexing
wraps it to bucket `r + 213`. -/
theorem radical_out_of_range (el : CharacterEl) (sc r : Int)
    (hsel : el.cpValues.contains "jis208" = true)
    (hsc : el.strokeCount = some sc)
    (hr : el.radicalClassical = some r) :
    (parse_kanjidic2 { characters := [el] }).isOk = false ↔
      (215 ≤ r ∨ r ≤ -214) := by
  have hselchars : selectedCharacters { characters := [el] } = [el] := by
    rw [selectedCharacters]
    show List.filter _ [el] = [el]
    rw [List.filter_cons, if_pos hsel]
    rfl
  have hstep : (parse_kanjidic2_raw { characters := [el] }).isOk =
      (processCharacter
        { kanji_index := List.replicate 214 [], kanji_info := [] } el).isOk := by
    rw [parse_kanjidic2_raw, hselchars]
    exact foldlM_singleton_isOk _ _ _
  rw [isOk_parse_eq_raw, hstep]
  have hproc : (processCharacter
      { kanji_index := List.replicate 214 [], kanji_info := [] } el).isOk =
      (pyListModify (List.replicate 214 ([] : List RadicalIndexEntry))
        (r - 1) (fun b => b ++ [buildIndexEntry el sc])).isOk := by
    simp only [processCharacter, hsc, hr]
    cases hpy : pyListModify (List.replicate 214 ([] : List RadicalIndexEntry))
        (r - 1) (fun b => b ++ [buildIndexEntry el sc]) with
    | error e => rfl
    | ok idx => rfl
  rw [hproc]
  have hlen : ((List.replicate 214 ([] : List RadicalIndexEntry)).length : Int)
      = 214 := by
    rw [List.length_replicate]
    rfl
  constructor
  · intro hfalse
    by_contra hcon
    push_neg at hcon
    have hok : (pyListModify (List.replicate 214 ([] : List RadicalIndexEntry))
        (r - 1) (fun b => b ++ [buildIndexEntry el sc])).isOk = true := by
      rw [pyListModify_isOk, hlen]
      by_cases hneg : r - 1 < 0
      · rw [if_pos hneg]
        omega
      · rw [if_neg hneg]
        omega
    rw [hok] at hfalse
    cases hfalse
  · intro hout
    cases hok : (pyListModify (List.replicate 214 ([] : List RadicalIndexEntry))
        (r - 1) (fun b => b ++ [buildIndexEntry el sc])).isOk with
    | false => rfl
    | true =>
      exfalso
      rw [pyListModify_isOk, hlen] at hok
      by_cases hneg : r - 1 < 0
      · rw [if_pos hneg] at hok
        omega
      · rw [if_neg hneg] at hok
        omega

theorem radical_out_of_range_witness :
    ((parse_kanjidic2 { characters := [exElRad300] }).isOk = false ↔
      (215 ≤ (300 : Int) ∨ (300 : Int) ≤ -214)) :=
  radical_out_of_range exElRad300 2 300 (by decide) rfl rfl

set_option maxRecDepth 100000 in
/-- Claim C2 counterexample: the character 一 carries radical number 0,
which is outside the valid bucket range `1 .. 214`, yet extraction
succeeds, and the entry is placed in bucket index 213 (Python negative
indexing wraps `kanji_index[-1]` to the last bucket), producing exactly the
partially-correct radical index the claim rules out. -/
theorem radical_zero_not_fatal :
    (¬ (1 ≤ (0 : Int) ∧ (0 : Int) ≤ 214)) ∧
    (parse_kanjidic2 exKdRad0).isOk = true ∧
    ((parse_kanjidic2 exKdRad0).toOption.getD ([], [])).1.getD 213 [] =
      [{ literal := some '一', jouyou := false, strokeCount := 1 }] := by
  refine ⟨by omega, rfl, rfl⟩

/-- Claim C5: every bucket of the emitted radical index is the stable sort
by non-decreasing stroke count of the raw bucket built in source encounter
order: the sorted bucket is `Sorted` under `strokeCount ≤`, and for every
stroke-count value the entries carrying it keep their encounter order. -/
theorem buckets_sorted_stable (kd : Kanjidic2) (st : KanjiState)
    (h : parse_kanjidic2_raw kd = .ok st) :
    parse_kanjidic2 kd = .ok (st.kanji_index.map sortBucket, st.kanji_info) ∧
    ∀ b ∈ st.kanji_index,
      List.Sorted bucketLE (sortBucket b) ∧
      ∀ n : Int,
        (sortBucket b).filter (bucketKeyP n) = b.filter (bucketKeyP n) := by
  refine ⟨by rw [parse_kanjidic2, h]; rfl, ?_⟩
  intro b _
  exact ⟨sorted_sortBucket b, fun n => filter_sortBucket n b⟩

set_option maxRecDepth 100000 in
theorem buckets_sorted_stable_witness :
    parse_kanjidic2 exKdGood =
      .ok (exStGood.kanji_index.map sortBucket, exStGood.kanji_info) ∧
    ∀ b ∈ exStGood.kanji_index,
      List.Sorted bucketLE (sortBucket b) ∧
      ∀ n : Int,
        (sortBucket b).filter (bucketKeyP n) = b.filter (bucketKeyP n) :=
  buckets_sorted_stable exKdGood exStGood rfl

/-- The fixed list of common-use grade codes (as the script compares them,
with `grade` an optional integer). -/
def jouyouGrades : List (Option Int) :=
  [some 1, some 2, some 3, some 4, some 5, some 6, some 8]

theorem gradeJouyou_iff (g : Option Int) :
    gradeJouyou g = true ↔ g ∈ jouyouGrades := by
  cases g with
  | none => simp [gradeJouyou, jouyouGrades]
  | some v =>
    rw [gradeJouyou, List.elem_iff]
    simp [jouyouGrades]

/-- Claim C8: every record in the produced character map has `jouyou` true
exactly when its grade is one of the common-use codes 1-6 or 8 (an absent
grade or grade 7 gives false). -/
theorem jouyou_iff_grade (kd : Kanjidic2)
    (idx : List (List RadicalIndexEntry)) (info : KanjiInfoMap)
    (h : parse_kanjidic2 kd = .ok (idx, info)) :
    ∀ p ∈ info, (p.2.jouyou = true ↔ p.2.grade ∈ jouyouGrades) := by
  rw [parse_kanjidic2] at h
  cases hr : parse_kanjidic2_raw kd with
  | error e =>
    rw [hr] at h
    exact Except.noConfusion h
  | ok st =>
    rw [hr] at h
    have hinfo : info = st.kanji_info := (Prod.mk.inj (Except.ok.inj h)).2.symm
    subst hinfo
    have hinv := foldlM_invariant processCharacter
      (fun s => ∀ p ∈ s.kanji_info, (p.2.jouyou = true ↔ p.2.grade ∈ jouyouGrades))
      ?_ (selectedCharacters kd)
      { kanji_index := List.replicate 214 [], kanji_info := [] } st hr
      (by intro p hp; cases hp)
    · exact hinv
    · intro s el s' hstep hs
      rcases processCharacter_ok hstep with ⟨sc, rad, idx', _, _, _, hst'⟩
      subst hst'
      intro p hp
      rcases mem_dictInsert hp with hold | hnew
      · exact hs p hold
      · subst hnew
        show gradeJouyou el.grade = true ↔ el.grade ∈ jouyouGrades
        exact gradeJouyou_iff el.grade

set_option maxRecDepth 100000 in
theorem jouyou_iff_grade_witness :
    ((some '兄', buildRecord exElAni 5) :
      Option Char × CharacterRecord).2.jouyou = true ↔
    ((some '兄', buildRecord exElAni 5) :
      Option Char × CharacterRecord).2.grade ∈ jouyouGrades :=
  jouyou_iff_grade exKdGood (exStGood.kanji_index.map sortBucket)
    exStGood.kanji_info
    (by rw [parse_kanjidic2,
          show parse_kanjidic2_raw exKdGood = .ok exStGood from rfl]; rfl)
    (some '兄', buildRecord exElAni 5) (by decide)

/-- Claim C6: every emitted per-character file is named by the code point
of the literal in lower-case hexadecimal between the prefix `0` and the
extension `.json`, and the hexadecimal value parsed back from the file
name equals the code point of the literal stored in the record. -/
theorem filename_roundtrip (m : KanjiInfoMap)
    (pair : String × CharacterRecord) (h : pair ∈ write_kanji_info m) :
    ∃ ch : Char, pair.2.literal = some ch ∧
      pair.1 = "0" ++ String.mk (natToHex ch.toNat) ++ ".json" ∧
      (∀ c ∈ natToHex ch.toNat, isLowerHexDigit c = true) ∧
      filenameHexValue pair.1 = some ch.toNat := by
  rw [write_kanji_info] at h
  rcases List.mem_filterMap.mp h with ⟨r, hr, hfr⟩
  rcases Option.map_eq_some'.mp hfr with ⟨ch, hlit, hpair⟩
  refine ⟨ch, ?_, ?_, fun c hc => natToHex_digits hc, ?_⟩
  · rw [← hpair]
    exact hlit
  · rw [← hpair]
    rfl
  · rw [← hpair]
    exact filenameHexValue_kanjiFilename ch

def exMapGen : KanjiInfoMap := [(some '元', buildRecord exElGen 4)]

theorem filename_roundtrip_witness :
    ∃ ch : Char,
      ((kanjiFilename '元', buildRecord exElGen 4) :
        String × CharacterRecord).2.literal = some ch ∧
      (kanjiFilename '元', buildRecord exElGen 4).1 =
        "0" ++ String.mk (natToHex ch.toNat) ++ ".json" ∧
      (∀ c ∈ natToHex ch.toNat, isLowerHexDigit c = true) ∧
      filenameHexValue (kanjiFilename '元', buildRecord exElGen 4).1 =
        some ch.toNat :=
  filename_roundtrip exMapGen (kanjiFilename '元', buildRecord exElGen 4)
    (List.mem_singleton.mpr rfl)

theorem bnot_isEmpty_iff {α : Type} (l : List α) :
    (!l.isEmpty) = true ↔ l ≠ [] := by
  cases l <;> simp

/-- Claim C7: for a qualifying entry, a reading is attached to the
compound iff it carries a priority flag of its own, independently of the
written-form flag. -/
theorem readings_priority_only {e : JMEntry} {wi : CompoundRef}
    (h : makeWordInfo e = some wi) :
    ∀ s : String,
      s ∈ wi.readings ↔ ∃ re ∈ e.rEles, re.rePri ≠ [] ∧ re.reb = s := by
  cases hf : findPriorityKeb e with
  | none =>
    simp only [makeWordInfo, hf] at h
    exact Option.noConfusion h
  | some w =>
    simp only [makeWordInfo, hf] at h
    have hwi := Option.some.inj h
    intro s
    rw [← hwi]
    show s ∈ (e.rEles.filter (fun re => !re.rePri.isEmpty)).map
      (fun re => re.reb) ↔ _
    simp only [List.mem_map, List.mem_filter, bnot_isEmpty_iff]
    constructor
    · rintro ⟨re, ⟨hre, hpri⟩, hreb⟩
      exact ⟨re, hre, hpri, hreb⟩
    · rintro ⟨re, hre, hpri, hreb⟩
      exact ⟨re, ⟨hre, hpri⟩, hreb⟩

def exEntNoReading : JMEntry :=
  { kEles := [{ keb := "日", kePri := ["news1"] }],
    rEles := [{ reb := "ひ", rePri := [] }],
    senses := [{ glosses := ["day"] }] }

def exWiNoReading : CompoundRef :=
  { word := "日", readings := [], meanings := ["day"] }

theorem readings_priority_only_witness :
    exWiNoReading.readings = [] ∧
    (∀ s : String, s ∈ exWiNoReading.readings ↔
      ∃ re ∈ exEntNoReading.rEles, re.rePri ≠ [] ∧ re.reb = s) :=
  ⟨rfl, readings_priority_only
    (rfl : makeWordInfo exEntNoReading = some exWiNoReading)⟩

/-- The function `List.find?` returns the first match: there is a position holding the
result, satisfying the predicate, with every earlier position failing
it. -/
theorem find?_first {α : Type} (p : α → Bool) :
    ∀ (l : List α) (x : α), l.find? p = some x →
      ∃ i, ∃ hi : i < l.length, l.get ⟨i, hi⟩ = x ∧ p x = true ∧
        ∀ j (hj : j < i), p (l.get ⟨j, Nat.lt_trans hj hi⟩) = false := by
  intro l
  induction l with
  | nil => intro x h; exact Option.noConfusion h
  | cons a t ih =>
    intro x h
    rw [List.find?_cons] at h
    cases hpa : p a with
    | true =>
      rw [hpa] at h
      have hx : a = x := Option.some.inj h
      refine ⟨0, Nat.succ_pos _, hx, hx ▸ hpa, ?_⟩
      intro j hj
      exact absurd hj (Nat.not_lt_zero j)
    | false =>
      rw [hpa] at h
      rcases ih x h with ⟨i, hi, hget, hpx, hprev⟩
      refine ⟨i + 1, Nat.succ_lt_succ hi, hget, hpx, ?_⟩
      intro j hj
      cases j with
      | zero => exact hpa
      | succ j2 =>
        exact hprev j2 (Nat.lt_of_succ_lt_succ hj)

/-- Claim C4: an entry contributes a compound record iff some written form
carries a priority flag; the representative word is the `keb` of the first
priority-flagged `k_ele` in document order; a non-qualifying entry
contributes nothing anywhere. -/
theorem entry_selection (e : JMEntry) :
    ((makeWordInfo e).isSome = true ↔ ∃ ke ∈ e.kEles, ke.kePri ≠ []) ∧
    (∀ wi, makeWordInfo e = some wi →
      ∃ i, ∃ hi : i < e.kEles.length,
        wi.word = (e.kEles.get ⟨i, hi⟩).keb ∧
        (e.kEles.get ⟨i, hi⟩).kePri ≠ [] ∧
        ∀ j (hj : j < i), (e.kEles.get ⟨j, Nat.lt_trans hj hi⟩).kePri = []) ∧
    (makeWordInfo e = none → ∀ m, linkEntry m e = m) := by
  refine ⟨?_, ?_, fun hn m => linkEntry_of_none hn m⟩
  · have hsome : (makeWordInfo e).isSome = (findPriorityKeb e).isSome := by
      cases hf : findPriorityKeb e <;> simp [makeWordInfo, hf]
    rw [hsome, findPriorityKeb]
    rw [show ((e.kEles.find? (fun ke => !ke.kePri.isEmpty)).map
        (fun ke => ke.keb)).isSome =
      (e.kEles.find? (fun ke => !ke.kePri.isEmpty)).isSome from
        Option.isSome_map]
    rw [List.find?_isSome]
    constructor
    · rintro ⟨ke, hke, hp⟩
      exact ⟨ke, hke, (bnot_isEmpty_iff ke.kePri).mp hp⟩
    · rintro ⟨ke, hke, hp⟩
      exact ⟨ke, hke, (bnot_isEmpty_iff ke.kePri).mpr hp⟩
  · intro wi h
    cases hf : findPriorityKeb e with
    | none =>
      simp only [makeWordInfo, hf] at h
      exact Option.noConfusion h
    | some w =>
      have hword : wi.word = w := by
        simp only [makeWordInfo, hf] at h
        rw [← Option.some.inj h]
      rw [findPriorityKeb] at hf
      rcases Option.map_eq_some'.mp hf with ⟨ke, hfind, hkeb⟩
      rcases find?_first (fun ke => !ke.kePri.isEmpty) e.kEles ke hfind
        with ⟨i, hi, hget, hpke, hprev⟩
      refine ⟨i, hi, ?_, ?_, ?_⟩
      · rw [hword, ← hkeb, hget]
      · rw [hget]
        exact (bnot_isEmpty_iff ke.kePri).mp hpke
      · intro j hj
        have hfalse := hprev j hj
        have htrue :
            (e.kEles.get ⟨j, Nat.lt_trans hj hi⟩).kePri.isEmpty = true := by
          cases hE : (e.kEles.get ⟨j, Nat.lt_trans hj hi⟩).kePri.isEmpty
          · rw [hE] at hfalse
            exact Bool.noConfusion hfalse
          · rfl
        exact List.isEmpty_iff.mp htrue

/-- An entry whose first k_ele has no priority flag and whose second one
does: the representative word is the second `keb`. -/
def exEntGenki : JMEntry :=
  { kEles := [{ keb := "減基", kePri := [] },
              { keb := "元気", kePri := ["ichi1"] }],
    rEles := [{ reb := "げんき", rePri := ["ichi1"] }],
    senses := [{ glosses := ["health", "vigour"] },
               { glosses := ["courage"] }] }

def exWiGenki : CompoundRef :=
  { word := "元気", readings := ["げんき"],
    meanings := ["health", "vigour", "courage"] }

theorem entry_selection_witness :
    ∃ i, ∃ hi : i < exEntGenki.kEles.length,
      exWiGenki.word = (exEntGenki.kEles.get ⟨i, hi⟩).keb ∧
      (exEntGenki.kEles.get ⟨i, hi⟩).kePri ≠ [] ∧
      ∀ j (hj : j < i),
        (exEntGenki.kEles.get ⟨j, Nat.lt_trans hj hi⟩).kePri = [] :=
  (entry_selection exEntGenki).2.1 exWiGenki rfl

/-- Claim C3: linking a qualifying entry appends the one shared compound
value to exactly the known characters occurring in the representative word
within the CJK Unified Ideographs range: such records gain `wi` (the same
value for every matching character), every other known record is
unchanged, keys absent from the map stay absent, and nothing fails. -/
theorem link_exact_characters {e : JMEntry} {wi : CompoundRef}
    (h : makeWordInfo e = some wi) (m : KanjiInfoMap) (k : Char) :
    (∀ rec, dictGet m (some k) = some rec →
      ∃ rec', dictGet (linkEntry m e) (some k) = some rec' ∧
        ((k ∈ wi.word.toList ∧ 0x4e00 ≤ k.toNat ∧ k.toNat ≤ 0x9fff) →
          wi ∈ rec'.compounds) ∧
        (¬ (k ∈ wi.word.toList ∧ 0x4e00 ≤ k.toNat ∧ k.toNat ≤ 0x9fff) →
          rec' = rec)) ∧
    (dictGet m (some k) = none →
      dictGet (linkEntry m e) (some k) = none) := by
  have hmem_iff : k ∈ extract_kanji_from_word wi.word ↔
      (k ∈ wi.word.toList ∧ 0x4e00 ≤ k.toNat ∧ k.toNat ≤ 0x9fff) := by
    rw [extract_kanji_from_word, List.mem_filter, decide_eq_true_eq]
  constructor
  · intro rec hrec
    have hlink := dictGet_linkEntry h m k
    rw [hrec, Option.map_some'] at hlink
    refine ⟨_, hlink, ?_, ?_⟩
    · intro hocc
      have hk : k ∈ extract_kanji_from_word wi.word := hmem_iff.mpr hocc
      have hcnt : 0 < List.count k (extract_kanji_from_word wi.word) :=
        List.count_pos_iff.mpr hk
      refine List.mem_append.mpr (Or.inr ?_)
      rw [List.mem_replicate]
      exact ⟨by omega, rfl⟩
    · intro hnocc
      have hk : k ∉ extract_kanji_from_word wi.word := fun hk =>
        hnocc (hmem_iff.mp hk)
      have hcnt : List.count k (extract_kanji_from_word wi.word) = 0 :=
        List.count_eq_zero.mpr hk
      rw [hcnt]
      exact compounds_append_nil rec
  · intro hnone
    have hlink := dictGet_linkEntry h m k
    rw [hnone, Option.map_none'] at hlink
    exact hlink

/-- Example character 気 (radical 84, 6 strokes). -/
def exElKi : CharacterEl :=
  { cpValues := ["jis208"], literal := some '気',
    radicalClassical := some 84, grade := some 1, strokeCount := some 6,
    readings := [], meanings := [] }

def exMapGenKi : KanjiInfoMap :=
  [(some '元', buildRecord exElGen 4), (some '気', buildRecord exElKi 6)]

theorem link_exact_characters_witness :
    ∃ rec', dictGet (linkEntry exMapGenKi exEntGenki) (some '元') =
        some rec' ∧
      (('元' ∈ exWiGenki.word.toList ∧ 0x4e00 ≤ '元'.toNat ∧
          '元'.toNat ≤ 0x9fff) → exWiGenki ∈ rec'.compounds) ∧
      (¬ ('元' ∈ exWiGenki.word.toList ∧ 0x4e00 ≤ '元'.toNat ∧
          '元'.toNat ≤ 0x9fff) → rec' = buildRecord exElGen 4) :=
  (@link_exact_characters exEntGenki exWiGenki rfl exMapGenKi '元').1
    (buildRecord exElGen 4) rfl

/-- Example character 日 (radical 72, 4 strokes). -/
def exElNichi : CharacterEl :=
  { cpValues := ["jis208"], literal := some '日',
    radicalClassical := some 72, grade := some 1, strokeCount := some 4,
    readings := [], meanings := [] }

def exMapNichi : KanjiInfoMap := [(some '日', buildRecord exElNichi 4)]

/-- An entry whose representative word contains the same kanji twice. -/
def exEntNichiNichi : JMEntry :=
  { kEles := [{ keb := "日日", kePri := ["ichi1"] }],
    rEles := [], senses := [{ glosses := ["every day"] }] }

def exWiNichiNichi : CompoundRef :=
  { word := "日日", readings := [], meanings := ["every day"] }

/-- Claim C10 (implicit): a known kanji occurring n times in the
representative word receives the shared compound n times; occurrences are
not deduplicated per character. -/
theorem link_multiplicity {e : JMEntry} {wi : CompoundRef}
    (h : makeWordInfo e = some wi) (m : KanjiInfoMap) (k : Char)
    (hk1 : 0x4e00 ≤ k.toNat) (hk2 : k.toNat ≤ 0x9fff)
    (rec : CharacterRecord) (hrec : dictGet m (some k) = some rec) :
    ∃ rec', dictGet (linkEntry m e) (some k) = some rec' ∧
      List.count wi rec'.compounds =
        List.count wi rec.compounds + List.count k wi.word.toList := by
  have hlink := dictGet_linkEntry h m k
  rw [hrec, Option.map_some'] at hlink
  refine ⟨_, hlink, ?_⟩
  show List.count wi (rec.compounds ++
    List.replicate (List.count k (extract_kanji_from_word wi.word)) wi) = _
  rw [List.count_append, List.count_replicate]
  rw [if_pos (show (wi == wi) = true by simp)]
  congr 1
  rw [extract_kanji_from_word]
  refine List.count_filter ?_
  rw [decide_eq_true_eq]
  exact ⟨hk1, hk2⟩

theorem link_multiplicity_witness :
    ∃ rec', dictGet (linkEntry exMapNichi exEntNichiNichi) (some '日') =
        some rec' ∧
      List.count exWiNichiNichi rec'.compounds =
        List.count exWiNichiNichi (buildRecord exElNichi 4).compounds +
        List.count '日' exWiNichiNichi.word.toList :=
  @link_multiplicity exEntNichiNichi exWiNichiNichi rfl exMapNichi '日'
    (by decide) (by decide) (buildRecord exElNichi 4) rfl
